import Mathlib

/-!
Shallow embedding of the DOM-compatibility shim and tree-normalization pass of
`src/docx-preview.ts` (the headless rendering path of the docx preview library).

A tree node is modelled by `XNode`: an element carries its tag name, its
attribute list (in document order, as the minimal XML implementation stores
them), the shadow fields written by the renderer (`className`, the internal
class-token list `classList` backing the shimmed `classList` accessor, the
injected-markup string `innerHTML`, the internal style mapping `styleMap`
backing the shimmed `style` accessor, the span scalars `rowSpan`/`colSpan`,
the image source `src`) and its children.  Text and comment nodes carry their
content.  JavaScript truthiness is modelled explicitly: a missing value and
the empty string are falsy, a present array or object (even an empty one) is
truthy, the number zero is falsy.
-/

namespace DocxPreview

inductive XNode where
| element (tag : String) (attrs : List (String × String))
    (className : Option String) (classList : Option (List String))
    (innerHTML : Option String) (styleMap : Option (List (String × String)))
    (rowSpan : Nat) (colSpan : Nat) (src : Option String)
    (children : List XNode)
| text (content : String)
| comment (content : String)
deriving Repr

/-- JS truthiness of a possibly-absent string: `undefined`, `null` and `""` are
falsy, every other string is truthy. -/
def truthyStr : Option String → Bool
| some s => !(s == "")
| none => false

/-- `Element.prototype.setAttribute` of the minimal XML implementation: replace
the value of an existing attribute in place, otherwise append a new attribute
at the end. -/
def setAttribute (attrs : List (String × String)) (name value : String) :
    List (String × String) :=
  if attrs.any (fun p => p.1 == name) then
    attrs.map (fun p => if p.1 == name then (name, value) else p)
  else
    attrs ++ [(name, value)]

/-- Attribute lookup: value of the first attribute with the given name. -/
def getAttribute (attrs : List (String × String)) (name : String) :
    Option String :=
  (attrs.find? (fun p => p.1 == name)).map (fun p => p.2)

/-- The regex `[A-Z]` of `kebabCase` matches exactly the ASCII uppercase
letters. -/
def isAsciiUpperChar (c : Char) : Bool :=
  'A' ≤ c && c ≤ 'Z'

/-- One character of `kebabCase`: an ASCII uppercase letter is replaced by a
hyphen followed by its lowercase form, every other character is kept. -/
def kebabCaseChar (c : Char) : List Char :=
  if isAsciiUpperChar c then ['-', c.toLower] else [c]

/-- `kebabCase`: `property.replace(/[A-Z]/g, char => "-" + char.toLowerCase())`.
The global regex replaces every ASCII uppercase letter, a leading one
included. -/
def kebabCase (property : String) : String :=
  String.mk (property.data.flatMap kebabCaseChar)

/-- Rendering of the internal style mapping inside `handleXmlNode`:
`Object.keys(node.style).map(key => kebabCase(key) + ": " + node.style[key])`
joined with `"; "` (entries in insertion order). -/
def renderStyles (m : List (String × String)) : String :=
  String.intercalate "; " (m.map (fun p => kebabCase p.1 ++ ": " ++ p.2))

/-- `isTableCell`: `value.tagName == "td"` (exact, case-sensitive; a text or
comment node has no tag name and never matches). -/
def isTableCell : XNode → Bool
| XNode.element tag _ _ _ _ _ _ _ _ _ => tag == "td"
| _ => false

/-- `isImage`: `value.tagName == "img"` (exact, case-sensitive). -/
def isImage : XNode → Bool
| XNode.element tag _ _ _ _ _ _ _ _ _ => tag == "img"
| _ => false

/-- `isElement`: `value.nodeType === 1`. -/
def isElementNode : XNode → Bool
| XNode.element _ _ _ _ _ _ _ _ _ _ => true
| _ => false

/-- `nodeType` of the minimal implementation: 1 for elements, 3 for text
nodes, 8 for comments. -/
def nodeTypeOf : XNode → Nat
| XNode.element _ _ _ _ _ _ _ _ _ _ => 1
| XNode.text _ => 3
| XNode.comment _ => 8

/-- Rules 1 and 2 of the normalizer, in source order: if the direct
`className` value is truthy, write it as the `class` attribute; if the
internal class-token list is present (a JS array is truthy even when empty),
join its tokens with single spaces — reading the shimmed `classList` accessor,
i.e. the backing array — and overwrite the `class` attribute with the result. -/
def classAttrsStep (attrs : List (String × String)) (className : Option String)
    (classList : Option (List String)) : List (String × String) :=
  let a1 := if truthyStr className then
      setAttribute attrs "class" (className.getD "") else attrs
  if classList.isSome then
    setAttribute a1 "class" (String.intercalate " " (classList.getD [])) else a1

/-- Rule 4 of the normalizer: if the internal style mapping is present (a JS
object is truthy even when empty), render it and write the `style`
attribute. -/
def styleAttrStep (a : List (String × String))
    (styleMap : Option (List (String × String))) : List (String × String) :=
  if styleMap.isSome then setAttribute a "style" (renderStyles (styleMap.getD [])) else a

/-- Rules 5 and 6 of the normalizer: on a table cell (`tagName == "td"`,
exact), write the non-zero span scalars as decimal `rowspan`/`colspan`
attributes; otherwise, on an image (`tagName == "img"`, exact) with a truthy
source scalar, write the `src` attribute. -/
def spanSrcStep (tag : String) (a : List (String × String)) (rowSpan colSpan : Nat)
    (src : Option String) : List (String × String) :=
  if tag == "td" then
    (let aR := if rowSpan != 0 then setAttribute a "rowspan" (toString rowSpan) else a
     if colSpan != 0 then setAttribute aR "colspan" (toString colSpan) else aR)
  else if tag == "img" && truthyStr src then
    setAttribute a "src" (src.getD "")
  else a

/-- The attribute writes performed by `handleXmlNode` on one element, in
source order.  The `innerHTML` rule writes no attribute and is handled in
`handleXmlNode` itself. -/
def elemAttrs (tag : String) (attrs : List (String × String))
    (className : Option String) (classList : Option (List String))
    (styleMap : Option (List (String × String)))
    (rowSpan colSpan : Nat) (src : Option String) : List (String × String) :=
  spanSrcStep tag (styleAttrStep (classAttrsStep attrs className classList) styleMap)
    rowSpan colSpan src

mutual

/-- `handleXmlNode`, the normalization pass.  On an element it performs the
attribute writes of `elemAttrs`, clears `className` when it was truthy, clears
the class-token list and the style mapping whenever they are present (a
present array or object is truthy in JS even when empty, and an absent one is
already `none`, so both fields always end up cleared), appends one text child
holding the injected markup verbatim when `innerHTML` is truthy and clears it,
and clears `src` when the image rule fired; the span scalars are never
cleared.  It then recurses into every child — the freshly appended text child
included, since the source loop re-reads `childNodes.length`; a text child is
returned unchanged, which `handleXmlNodes_append` below makes explicit. -/
def handleXmlNode : XNode → XNode
| XNode.text s => XNode.text s
| XNode.comment s => XNode.comment s
| XNode.element tag attrs className classList innerHTML styleMap rowSpan colSpan src children =>
  XNode.element tag
    (elemAttrs tag attrs className classList styleMap rowSpan colSpan src)
    (if truthyStr className then none else className)
    none
    (if truthyStr innerHTML then none else innerHTML)
    none
    rowSpan colSpan
    (if tag == "td" then src
     else if tag == "img" && truthyStr src then none
     else src)
    (handleXmlNodes children ++
      (if truthyStr innerHTML then [XNode.text (innerHTML.getD "")] else []))

/-- The child loop of `handleXmlNode` over a list of children. -/
def handleXmlNodes : List XNode → List XNode
| [] => []
| c :: cs => handleXmlNode c :: handleXmlNodes cs

end

/-- Tag name accessor (`tagName`); text and comment nodes have none. -/
def tagOf : XNode → Option String
| XNode.element tag _ _ _ _ _ _ _ _ _ => some tag
| _ => none

/-- Attribute list accessor; text and comment nodes have no attributes. -/
def attrsOf : XNode → List (String × String)
| XNode.element _ attrs _ _ _ _ _ _ _ _ => attrs
| _ => []

/-- The direct `className` shadow value of a node. -/
def classNameOf : XNode → Option String
| XNode.element _ _ className _ _ _ _ _ _ _ => className
| _ => none

/-- The internal class-token list (`_classList`) of a node. -/
def classListOf : XNode → Option (List String)
| XNode.element _ _ _ classList _ _ _ _ _ _ => classList
| _ => none

/-- The injected-markup string (`innerHTML`) of a node. -/
def innerHTMLOf : XNode → Option String
| XNode.element _ _ _ _ innerHTML _ _ _ _ _ => innerHTML
| _ => none

/-- The internal style mapping (`_style`) of a node. -/
def styleMapOf : XNode → Option (List (String × String))
| XNode.element _ _ _ _ _ styleMap _ _ _ _ => styleMap
| _ => none

/-- The row-span scalar of a node (0 = unset/default, falsy in JS). -/
def rowSpanOf : XNode → Nat
| XNode.element _ _ _ _ _ _ rowSpan _ _ _ => rowSpan
| _ => 0

/-- The column-span scalar of a node (0 = unset/default, falsy in JS). -/
def colSpanOf : XNode → Nat
| XNode.element _ _ _ _ _ _ _ colSpan _ _ => colSpan
| _ => 0

/-- The image-source scalar (`src`) of a node. -/
def srcOf : XNode → Option String
| XNode.element _ _ _ _ _ _ _ _ src _ => src
| _ => none

/-- `childNodes`: the children of an element; text and comment nodes have
none. -/
def childNodesOf : XNode → List XNode
| XNode.element _ _ _ _ _ _ _ _ _ children => children
| _ => []

mutual

/-- No truthy shadow state remains anywhere in the tree, with the exception of
the span scalars: `className` and `innerHTML` are falsy, the class-token list
and the style mapping are absent, and on an image node the source scalar is
falsy. -/
def shadowCleared : XNode → Bool
| XNode.element tag _ className classList innerHTML styleMap _ _ src children =>
  !truthyStr className && classList.isNone && !truthyStr innerHTML &&
    styleMap.isNone && (!(tag == "img") || !truthyStr src) &&
    shadowClearedList children
| XNode.text _ => true
| XNode.comment _ => true

/-- `shadowCleared` over a list of children. -/
def shadowClearedList : List XNode → Bool
| [] => true
| c :: cs => shadowCleared c && shadowClearedList cs

end

/-- The five standard attribute names the normalizer may write. -/
def standardAttrNames : List String :=
  ["class", "style", "rowspan", "colspan", "src"]

mutual

/-- Every attribute of every node of the tree bears a standard name. -/
def onlyStandardAttrs : XNode → Bool
| XNode.element _ attrs _ _ _ _ _ _ _ children =>
  attrs.all (fun p => standardAttrNames.contains p.1) &&
    onlyStandardAttrsList children
| XNode.text _ => true
| XNode.comment _ => true

/-- `onlyStandardAttrs` over a list of children. -/
def onlyStandardAttrsList : List XNode → Bool
| [] => true
| c :: cs => onlyStandardAttrs c && onlyStandardAttrsList cs

end

mutual

/-- Height of a tree (a leaf has height 1). -/
def heightOf : XNode → Nat
| XNode.element _ _ _ _ _ _ _ _ _ children => heightList children + 1
| XNode.text _ => 1
| XNode.comment _ => 1

/-- Maximal height of a list of trees (0 for the empty list). -/
def heightList : List XNode → Nat
| [] => 0
| c :: cs => max (heightOf c) (heightList cs)

end

/-- Apply a fallible transformation to every member of a list, failing if any
application fails. -/
def optionMapList (f : XNode → Option XNode) : List XNode → Option (List XNode)
| [] => some []
| c :: cs =>
  match f c, optionMapList f cs with
  | some c2, some cs2 => some (c2 :: cs2)
  | _, _ => none

/-- Fuel-bounded version of `handleXmlNode`, making the termination question
explicit: each recursive visit consumes one unit of fuel, and — exactly as in
the source, whose child loop re-reads `childNodes.length` on every iteration —
the freshly appended text child is itself visited by the child loop.  With no
fuel left the traversal aborts with `none`. -/
def handleXmlNodeFuel : Nat → XNode → Option XNode
| 0, _ => none
| _ + 1, XNode.text s => some (XNode.text s)
| _ + 1, XNode.comment s => some (XNode.comment s)
| n + 1, XNode.element tag attrs className classList innerHTML styleMap rowSpan colSpan src children =>
  match optionMapList (handleXmlNodeFuel n)
      (children ++
        (if truthyStr innerHTML then [XNode.text (innerHTML.getD "")] else [])) with
  | some cs =>
    some (XNode.element tag
      (elemAttrs tag attrs className classList styleMap rowSpan colSpan src)
      (if truthyStr className then none else className)
      none
      (if truthyStr innerHTML then none else innerHTML)
      none
      rowSpan colSpan
      (if tag == "td" then src
       else if tag == "img" && truthyStr src then none
       else src)
      cs)
  | none => none

/-- One guarded property definition of `initXmlDom`: define the accessor only
when the prototype does not already own a property of that name
(`proto.hasOwnProperty(name)`); a prototype is modelled by the list of its own
property names in definition order. -/
def defineIfMissing (proto : List String) (name : String) : List String :=
  if name ∈ proto then proto else proto ++ [name]

/-- `initXmlDom` on the headless path: guarded installation of the three
accessors `firstElementChild`, `style` and `classList`, in source order, onto
the shared prototype. -/
def initXmlDom (proto : List String) : List String :=
  defineIfMissing
    (defineIfMissing (defineIfMissing proto "firstElementChild") "style")
    "classList"

/-- `getFirstElementChild`: a null node yields null; otherwise scan
`childNodes` in order and return the first child whose `nodeType` is 1
(element), or null when none is. -/
def getFirstElementChild : Option XNode → Option XNode
| none => none
| some node => (childNodesOf node).find? (fun c => nodeTypeOf c == 1)

/-- A table cell carrying span scalars 2 and 3 and nothing else. -/
def c1Node : XNode :=
  XNode.element "td" [] none none none none 2 3 none []

/-- A renderer-produced table cell exercising every shadow field at once. -/
def c1WitnessNode : XNode :=
  XNode.element "td" [("class", "old")] (some "a") (some ["x", "y"]) (some "hi")
    (some [("fontSize", "12px")]) 2 3 none
    [XNode.element "img" [] none none none none 0 0 (some "u.png") []]

/-- A node with a truthy `className` and a present-but-empty token list. -/
def c2Node : XNode :=
  XNode.element "div" [] (some "a") (some []) none none 0 0 none []

/-- A node whose style mapping has one key with a leading uppercase letter. -/
def c3NodeA : XNode :=
  XNode.element "div" [] none none none (some [("Foo", "1")]) 0 0 none []

/-- A node with a present-but-empty style mapping. -/
def c3NodeB : XNode :=
  XNode.element "div" [] none none none (some []) 0 0 none []

/-- A node whose first element child is preceded by a text and a comment
node. -/
def c8Node : XNode :=
  XNode.element "div" [] none none none none 0 0 none
    [XNode.text "t", XNode.comment "c",
     XNode.element "b" [] none none none none 0 0 none [], XNode.text "u"]

/-! ### Basic lemmas about the traversal and the attribute store -/

theorem handleXmlNode_text_eq (s : String) :
    handleXmlNode (XNode.text s) = XNode.text s := rfl

theorem handleXmlNodes_app (l1 l2 : List XNode) :
    handleXmlNodes (l1 ++ l2) = handleXmlNodes l1 ++ handleXmlNodes l2 := by
  induction l1 with
  | nil => rfl
  | cons c cs ih => simp [handleXmlNodes, ih]

/-- Processing the original children and then appending the injected text
child is the same as processing the children list with the text child already
appended: the source loop re-reads the child count, visits the appended text
node and leaves it unchanged. -/
theorem handleXmlNodes_append (l : List XNode) (s : String) :
    handleXmlNodes l ++ [XNode.text s] = handleXmlNodes (l ++ [XNode.text s]) := by
  rw [handleXmlNodes_app]
  rfl

theorem find?_append_left_none {α : Type} (t : α → Bool) (l1 l2 : List α)
    (h : l1.any t = false) : (l1 ++ l2).find? t = l2.find? t := by
  induction l1 with
  | nil => rfl
  | cons x xs ih =>
    simp only [List.any_cons, Bool.or_eq_false_iff] at h
    rw [List.cons_append]
    simp only [List.find?, h.1]
    exact ih h.2

theorem getAttribute_map_set (k v : String) :
    ∀ a : List (String × String), a.any (fun p => p.1 == k) = true →
      getAttribute (a.map (fun p => if p.1 == k then (k, v) else p)) k = some v
| [], h => by simp at h
| p :: ps, h => by
  cases hp : (p.1 == k) with
  | true =>
    simp [getAttribute, List.map_cons, List.find?, hp]
  | false =>
    have hps : ps.any (fun q => q.1 == k) = true := by
      have h2 := h
      simp only [List.any_cons, hp, Bool.false_or] at h2
      exact h2
    have ihs := getAttribute_map_set k v ps hps
    simp only [getAttribute, List.map_cons, List.find?, hp, Bool.false_eq_true,
      if_false] at ihs ⊢
    exact ihs

/-- After `setAttribute a k v`, looking up `k` yields `v`. -/
theorem getAttribute_setAttribute_self (a : List (String × String)) (k v : String) :
    getAttribute (setAttribute a k v) k = some v := by
  unfold setAttribute
  by_cases h : a.any (fun p => p.1 == k) = true
  · rw [if_pos h]
    exact getAttribute_map_set k v a h
  · rw [if_neg h, getAttribute,
      find?_append_left_none _ _ _ (Bool.eq_false_iff.mpr h)]
    simp [List.find?]

/-- `setAttribute` on one name leaves lookups of any other name unchanged. -/
theorem getAttribute_setAttribute_other (a : List (String × String)) (k v k2 : String)
    (hne : k2 ≠ k) : getAttribute (setAttribute a k v) k2 = getAttribute a k2 := by
  have hkk2 : (k == k2) = false := by
    simp only [beq_eq_false_iff_ne, ne_eq]
    exact fun hkk => hne hkk.symm
  unfold setAttribute
  by_cases h : a.any (fun p => p.1 == k) = true
  · rw [if_pos h]
    unfold getAttribute
    clear h
    induction a with
    | nil => rfl
    | cons p ps ih =>
      cases hp : (p.1 == k) with
      | true =>
        have hp1 : p.1 = k := by simpa using hp
        have hpk2 : (p.1 == k2) = false := by rw [hp1]; exact hkk2
        simp only [List.map_cons, hp, if_true, List.find?, hkk2, hpk2]
        exact ih
      | false =>
        cases hq : (p.1 == k2) with
        | true =>
          simp only [List.map_cons, hp, Bool.false_eq_true, if_false, List.find?, hq]
        | false =>
          simp only [List.map_cons, hp, Bool.false_eq_true, if_false, List.find?, hq]
          exact ih
  · rw [if_neg h]
    unfold getAttribute
    clear h
    induction a with
    | nil => simp [List.find?, hkk2]
    | cons p ps ih =>
      cases hq : (p.1 == k2) with
      | true =>
        simp only [List.cons_append, List.find?, hq]
      | false =>
        simp only [List.cons_append, List.find?, hq]
        exact ih

/-- All entries of `a` with key `k` hold value `v`, and at least one entry has
key `k`.  This is the state of the attribute store right after
`setAttribute a k v`, and it makes a later identical `setAttribute` a no-op. -/
def AttrFixed (a : List (String × String)) (k v : String) : Prop :=
  a.any (fun p => p.1 == k) = true ∧ ∀ p ∈ a, p.1 = k → p.2 = v

theorem attrFixed_setAttribute_self (a : List (String × String)) (k v : String) :
    AttrFixed (setAttribute a k v) k v := by
  unfold setAttribute AttrFixed
  by_cases h : a.any (fun p => p.1 == k) = true
  · rw [if_pos h]
    constructor
    · rcases List.any_eq_true.mp h with ⟨p, hmem, hpk⟩
      refine List.any_eq_true.mpr ⟨(k, v), List.mem_map.mpr ⟨p, hmem, ?_⟩, by simp⟩
      simp [hpk]
    · intro q hq hqk
      rcases List.mem_map.mp hq with ⟨p, hpmem, hfp⟩
      cases hpk : (p.1 == k) with
      | true =>
        rw [← hfp, if_pos hpk]
      | false =>
        exfalso
        rw [← hfp] at hqk
        simp [hpk] at hqk
        simp [hqk] at hpk
  · rw [if_neg h]
    constructor
    · exact List.any_eq_true.mpr ⟨(k, v), by simp, by simp⟩
    · intro q hq hqk
      rcases List.mem_append.mp hq with hq1 | hq2
      · exfalso
        exact h (List.any_eq_true.mpr ⟨q, hq1, by simp [hqk]⟩)
      · simp only [List.mem_singleton] at hq2
        rw [hq2]

theorem attrFixed_setAttribute_other (a : List (String × String)) (k v k2 w : String)
    (hne : k2 ≠ k) (h : AttrFixed a k v) : AttrFixed (setAttribute a k2 w) k v := by
  obtain ⟨h1, h2⟩ := h
  unfold setAttribute
  by_cases hc : a.any (fun p => p.1 == k2) = true
  · rw [if_pos hc]
    constructor
    · rcases List.any_eq_true.mp h1 with ⟨p, hmem, hpk⟩
      have hp1 : p.1 = k := by simpa using hpk
      have hpk2 : (p.1 == k2) = false := by
        simp only [beq_eq_false_iff_ne, ne_eq, hp1]
        exact fun hkk => hne hkk.symm
      refine List.any_eq_true.mpr ⟨p, List.mem_map.mpr ⟨p, hmem, by simp [hpk2]⟩, hpk⟩
    · intro q hq hqk
      rcases List.mem_map.mp hq with ⟨p, hpmem, hfp⟩
      cases hpk2 : (p.1 == k2) with
      | true =>
        exfalso
        rw [← hfp] at hqk
        simp only [hpk2, if_true] at hqk
        exact hne hqk
      | false =>
        rw [← hfp] at hqk ⊢
        simp only [hpk2, Bool.false_eq_true, if_false] at hqk ⊢
        exact h2 p hpmem hqk
  · rw [if_neg hc]
    constructor
    · rcases List.any_eq_true.mp h1 with ⟨p, hm, ht⟩
      exact List.any_eq_true.mpr ⟨p, by simp [hm], ht⟩
    · intro q hq hqk
      rcases List.mem_append.mp hq with hq1 | hq2
      · exact h2 q hq1 hqk
      · exfalso
        simp only [List.mem_singleton] at hq2
        rw [hq2] at hqk
        exact hne hqk

theorem setAttribute_of_attrFixed (a : List (String × String)) (k v : String)
    (h : AttrFixed a k v) : setAttribute a k v = a := by
  obtain ⟨h1, h2⟩ := h
  unfold setAttribute
  rw [if_pos h1]
  have hmap : a.map (fun p => if p.1 == k then (k, v) else p) = a.map id := by
    apply List.map_congr_left
    intro p hp
    cases hpk : (p.1 == k) with
    | true =>
      have hp1 : p.1 = k := by simpa using hpk
      have hp2 := h2 p hp hp1
      simp only [hpk, if_true, id_eq]
      rw [← hp1, ← hp2]
    | false => simp [hpk]
  rw [hmap, List.map_id]

/-- Re-setting an attribute to the value it was just set to changes nothing. -/
theorem setAttribute_idem (a : List (String × String)) (k v : String) :
    setAttribute (setAttribute a k v) k v = setAttribute a k v :=
  setAttribute_of_attrFixed _ _ _ (attrFixed_setAttribute_self a k v)

/-- The no-op pass: on an element whose string shadow fields are falsy, whose
list and object shadow fields are absent, whose source scalar cannot fire the
image rule, and whose attribute store already absorbs the span writes, the
normalizer rewrites nothing and only recurses into the children. -/
theorem handleXmlNode_stable (tag : String) (A : List (String × String))
    (c1 i3 src2 : Option String) (rs cs : Nat) (kids : List XNode)
    (hc : truthyStr c1 = false) (hi : truthyStr i3 = false)
    (hsrc : (tag == "img" && truthyStr src2) = false)
    (hrow : (tag == "td") = true → (rs != 0) = true →
      setAttribute A "rowspan" (toString rs) = A)
    (hcol : (tag == "td") = true → (cs != 0) = true →
      setAttribute A "colspan" (toString cs) = A) :
    handleXmlNode (XNode.element tag A c1 none i3 none rs cs src2 kids)
      = XNode.element tag A c1 none i3 none rs cs src2 (handleXmlNodes kids) := by
  rw [handleXmlNode]
  simp only [elemAttrs, classAttrsStep, styleAttrStep, spanSrcStep, hc, hi, hsrc,
    Bool.false_eq_true, if_false, Option.isSome_none, List.append_nil, ite_self]
  cases htd : (tag == "td") with
  | true =>
    simp only [htd, if_true]
    cases hr : (rs != 0) with
    | true =>
      cases hcs : (cs != 0) with
      | true =>
        simp only [hr, if_true, hcs, hrow htd hr, hcol htd hcs]
      | false =>
        simp only [hr, if_true, hcs, Bool.false_eq_true, if_false, hrow htd hr]
    | false =>
      cases hcs : (cs != 0) with
      | true =>
        simp only [hr, Bool.false_eq_true, if_false, hcs, if_true, hcol htd hcs]
      | false =>
        simp only [hr, hcs, Bool.false_eq_true, if_false]
  | false =>
    simp only [htd, Bool.false_eq_true, if_false]

mutual

/-- Running the normalization pass a second time changes nothing. -/
theorem handleXmlNode_idem_aux : ∀ t : XNode,
    handleXmlNode (handleXmlNode t) = handleXmlNode t
| XNode.text _ => rfl
| XNode.comment _ => rfl
| XNode.element tag attrs cn cl ihm st rs cs src children => by
  have hc : truthyStr (if truthyStr cn then none else cn) = false := by
    cases h : truthyStr cn with
    | true => rfl
    | false => simpa using h
  have hi : truthyStr (if truthyStr ihm then none else ihm) = false := by
    cases h : truthyStr ihm with
    | true => rfl
    | false => simpa using h
  have hsrc : (tag == "img" &&
      truthyStr (if tag == "td" then src
        else if tag == "img" && truthyStr src then none else src)) = false := by
    cases himg : (tag == "img") with
    | false => simp [himg]
    | true =>
      have htag : tag = "img" := by simpa using himg
      have htd : (tag == "td") = false := by simp [htag]
      cases hs : truthyStr src with
      | true => simp [himg, htd, hs, truthyStr]
      | false => simp [himg, htd, hs]
  have hrow : (tag == "td") = true → (rs != 0) = true →
      setAttribute (elemAttrs tag attrs cn cl st rs cs src) "rowspan" (toString rs)
        = elemAttrs tag attrs cn cl st rs cs src := by
    intro htd hr
    apply setAttribute_of_attrFixed
    unfold elemAttrs spanSrcStep
    simp only [htd, if_true, hr]
    cases hcs : (cs != 0) with
    | true =>
      simp only [hcs, if_true]
      exact attrFixed_setAttribute_other _ _ _ _ _ (by decide)
        (attrFixed_setAttribute_self _ _ _)
    | false =>
      simp only [hcs, Bool.false_eq_true, if_false]
      exact attrFixed_setAttribute_self _ _ _
  have hcol : (tag == "td") = true → (cs != 0) = true →
      setAttribute (elemAttrs tag attrs cn cl st rs cs src) "colspan" (toString cs)
        = elemAttrs tag attrs cn cl st rs cs src := by
    intro htd hcs
    apply setAttribute_of_attrFixed
    unfold elemAttrs spanSrcStep
    simp only [htd, if_true, hcs]
    exact attrFixed_setAttribute_self _ _ _
  have happ : handleXmlNodes (if truthyStr ihm then [XNode.text (ihm.getD "")] else [])
      = (if truthyStr ihm then [XNode.text (ihm.getD "")] else []) := by
    cases truthyStr ihm <;> rfl
  rw [handleXmlNode]
  rw [handleXmlNode_stable tag (elemAttrs tag attrs cn cl st rs cs src) _ _ _ rs cs _
    hc hi hsrc hrow hcol]
  rw [handleXmlNodes_app, handleXmlNodes_idem_aux children, happ]

/-- Running the child loop a second time changes nothing. -/
theorem handleXmlNodes_idem_aux : ∀ l : List XNode,
    handleXmlNodes (handleXmlNodes l) = handleXmlNodes l
| [] => rfl
| c :: cs => by
  simp only [handleXmlNodes]
  rw [handleXmlNode_idem_aux c, handleXmlNodes_idem_aux cs]

end

/-! ### Lookup lemmas through the attribute-writing stages -/

theorem getAttribute_spanSrcStep_other (tag : String) (a : List (String × String))
    (rs cs : Nat) (src : Option String) (k : String)
    (h1 : k ≠ "rowspan") (h2 : k ≠ "colspan") (h3 : k ≠ "src") :
    getAttribute (spanSrcStep tag a rs cs src) k = getAttribute a k := by
  unfold spanSrcStep
  cases htd : (tag == "td") with
  | true =>
    simp only [htd, if_true]
    cases hr : (rs != 0) with
    | true =>
      cases hcs : (cs != 0) with
      | true =>
        simp only [hr, hcs, if_true]
        rw [getAttribute_setAttribute_other _ _ _ _ h2,
          getAttribute_setAttribute_other _ _ _ _ h1]
      | false =>
        simp only [hr, hcs, if_true, Bool.false_eq_true, if_false]
        rw [getAttribute_setAttribute_other _ _ _ _ h1]
    | false =>
      cases hcs : (cs != 0) with
      | true =>
        simp only [hr, hcs, Bool.false_eq_true, if_false, if_true]
        rw [getAttribute_setAttribute_other _ _ _ _ h2]
      | false =>
        simp only [hr, hcs, Bool.false_eq_true, if_false]
  | false =>
    cases himg : (tag == "img" && truthyStr src) with
    | true =>
      simp only [htd, himg, Bool.false_eq_true, if_false, if_true]
      rw [getAttribute_setAttribute_other _ _ _ _ h3]
    | false =>
      simp only [htd, himg, Bool.false_eq_true, if_false]

/-- On a tag that is neither exactly "td" nor fires the image rule, the
span/source stage writes nothing. -/
theorem spanSrcStep_other_tag (tag : String) (a : List (String × String))
    (rs cs : Nat) (src : Option String) (h1 : (tag == "td") = false)
    (h2 : (tag == "img" && truthyStr src) = false) :
    spanSrcStep tag a rs cs src = a := by
  unfold spanSrcStep
  simp only [h1, Bool.false_eq_true, if_false, h2]

theorem getAttribute_styleAttrStep_other (a : List (String × String))
    (st : Option (List (String × String))) (k : String) (h : k ≠ "style") :
    getAttribute (styleAttrStep a st) k = getAttribute a k := by
  unfold styleAttrStep
  cases st with
  | some m =>
    simp only [Option.isSome_some, if_true]
    rw [getAttribute_setAttribute_other _ _ _ _ h]
  | none => simp only [Option.isSome_none, Bool.false_eq_true, if_false]

theorem getAttribute_styleAttrStep_style (a : List (String × String))
    (m : List (String × String)) :
    getAttribute (styleAttrStep a (some m)) "style" = some (renderStyles m) := by
  unfold styleAttrStep
  simp only [Option.isSome_some, if_true, Option.getD_some]
  exact getAttribute_setAttribute_self _ _ _

theorem getAttribute_classAttrsStep_some (attrs : List (String × String))
    (cn : Option String) (L : List String) :
    getAttribute (classAttrsStep attrs cn (some L)) "class"
      = some (String.intercalate " " L) := by
  unfold classAttrsStep
  simp only [Option.isSome_some, if_true, Option.getD_some]
  exact getAttribute_setAttribute_self _ _ _

theorem getAttribute_classAttrsStep_none_truthy (attrs : List (String × String))
    (c : String) (hc : c ≠ "") :
    getAttribute (classAttrsStep attrs (some c) none) "class" = some c := by
  unfold classAttrsStep
  have ht : truthyStr (some c) = true := by simp [truthyStr, hc]
  simp only [Option.isSome_none, Bool.false_eq_true, if_false, ht, if_true,
    Option.getD_some]
  exact getAttribute_setAttribute_self _ _ _

theorem getAttribute_classAttrsStep_other (attrs : List (String × String))
    (cn : Option String) (cl : Option (List String)) (k : String) (h : k ≠ "class") :
    getAttribute (classAttrsStep attrs cn cl) k = getAttribute attrs k := by
  unfold classAttrsStep
  cases hcl : cl.isSome with
  | true =>
    simp only [hcl, if_true]
    rw [getAttribute_setAttribute_other _ _ _ _ h]
    cases hcn : truthyStr cn with
    | true =>
      simp only [hcn, if_true]
      rw [getAttribute_setAttribute_other _ _ _ _ h]
    | false => simp only [hcn, Bool.false_eq_true, if_false]
  | false =>
    simp only [hcl, Bool.false_eq_true, if_false]
    cases hcn : truthyStr cn with
    | true =>
      simp only [hcn, if_true]
      rw [getAttribute_setAttribute_other _ _ _ _ h]
    | false => simp only [hcn, Bool.false_eq_true, if_false]

theorem getAttribute_elemAttrs_class (tag : String) (attrs : List (String × String))
    (cn : Option String) (cl : Option (List String))
    (st : Option (List (String × String))) (rs cs : Nat) (src : Option String) :
    getAttribute (elemAttrs tag attrs cn cl st rs cs src) "class"
      = getAttribute (classAttrsStep attrs cn cl) "class" := by
  unfold elemAttrs
  rw [getAttribute_spanSrcStep_other _ _ _ _ _ _ (by decide) (by decide) (by decide),
    getAttribute_styleAttrStep_other _ _ _ (by decide)]

theorem getAttribute_elemAttrs_style (tag : String) (attrs : List (String × String))
    (cn : Option String) (cl : Option (List String))
    (st : Option (List (String × String))) (rs cs : Nat) (src : Option String) :
    getAttribute (elemAttrs tag attrs cn cl st rs cs src) "style"
      = getAttribute (styleAttrStep (classAttrsStep attrs cn cl) st) "style" := by
  unfold elemAttrs
  rw [getAttribute_spanSrcStep_other _ _ _ _ _ _ (by decide) (by decide) (by decide)]

theorem getAttribute_spanSrcStep_rowspan (a : List (String × String)) (rs cs : Nat)
    (src : Option String) (hr : rs ≠ 0) :
    getAttribute (spanSrcStep "td" a rs cs src) "rowspan" = some (toString rs) := by
  unfold spanSrcStep
  have hr2 : (rs != 0) = true := by simpa using hr
  simp only [beq_self_eq_true, if_true, hr2]
  cases hcs : (cs != 0) with
  | true =>
    simp only [hcs, if_true]
    rw [getAttribute_setAttribute_other _ _ _ _ (by decide)]
    exact getAttribute_setAttribute_self _ _ _
  | false =>
    simp only [hcs, Bool.false_eq_true, if_false]
    exact getAttribute_setAttribute_self _ _ _

theorem getAttribute_spanSrcStep_colspan (a : List (String × String)) (rs cs : Nat)
    (src : Option String) (hc : cs ≠ 0) :
    getAttribute (spanSrcStep "td" a rs cs src) "colspan" = some (toString cs) := by
  unfold spanSrcStep
  have hc2 : (cs != 0) = true := by simpa using hc
  simp only [beq_self_eq_true, if_true, hc2]
  exact getAttribute_setAttribute_self _ _ _

/-! ### Shadow state after one pass -/

/-- Clearing a string shadow field when truthy leaves a falsy field behind. -/
theorem truthyStr_clear (o : Option String) :
    truthyStr (if truthyStr o then none else o) = false := by
  cases h : truthyStr o with
  | true => rfl
  | false => simpa using h

/-- After the image rule ran, no truthy source scalar remains on an image
node. -/
theorem img_src_cleared (tag : String) (src : Option String) :
    (!(tag == "img") || !truthyStr (if tag == "td" then src
      else if tag == "img" && truthyStr src then none else src)) = true := by
  cases himg : (tag == "img") with
  | false => simp [himg]
  | true =>
    have htag : tag = "img" := by simpa using himg
    have htd : (tag == "td") = false := by simp [htag]
    cases hs : truthyStr src with
    | true => simp [himg, htd, hs, truthyStr]
    | false => simp [himg, htd, hs]

theorem shadowClearedList_app (l1 l2 : List XNode) :
    shadowClearedList (l1 ++ l2) = (shadowClearedList l1 && shadowClearedList l2) := by
  induction l1 with
  | nil => simp [shadowClearedList]
  | cons c cs ih => simp [shadowClearedList, ih, Bool.and_assoc]

mutual

/-- One pass leaves no truthy shadow state (span scalars apart) anywhere. -/
theorem shadowCleared_handleXmlNode : ∀ t : XNode,
    shadowCleared (handleXmlNode t) = true
| XNode.text _ => rfl
| XNode.comment _ => rfl
| XNode.element tag attrs cn cl ihm st rs cs src children => by
  rw [handleXmlNode, shadowCleared]
  simp only [truthyStr_clear, Option.isNone_none, img_src_cleared, Bool.not_false,
    Bool.true_and, Bool.and_true]
  rw [shadowClearedList_app, shadowClearedList_handleXmlNodes children]
  cases truthyStr ihm <;> rfl

theorem shadowClearedList_handleXmlNodes : ∀ l : List XNode,
    shadowClearedList (handleXmlNodes l) = true
| [] => rfl
| c :: cs => by
  simp only [handleXmlNodes, shadowClearedList, shadowCleared_handleXmlNode c,
    shadowClearedList_handleXmlNodes cs, Bool.and_self]

end

/-! ### Attribute names after one pass -/

theorem all_fst_setAttribute (P : String → Bool) (a : List (String × String))
    (k v : String) (hk : P k = true) (h : a.all (fun p => P p.1) = true) :
    (setAttribute a k v).all (fun p => P p.1) = true := by
  unfold setAttribute
  by_cases hc : a.any (fun p => p.1 == k) = true
  · rw [if_pos hc]
    rw [List.all_eq_true] at h ⊢
    intro q hq
    rcases List.mem_map.mp hq with ⟨p, hp, hfp⟩
    cases hpk : (p.1 == k) with
    | true => rw [← hfp]; simp [hpk, hk]
    | false =>
      rw [← hfp]
      simp only [hpk, Bool.false_eq_true, if_false]
      exact h p hp
  · rw [if_neg hc, List.all_append, h]
    simp [hk]

theorem classAttrsStep_standard (attrs : List (String × String))
    (cn : Option String) (cl : Option (List String))
    (h : attrs.all (fun p => standardAttrNames.contains p.1) = true) :
    (classAttrsStep attrs cn cl).all
      (fun p => standardAttrNames.contains p.1) = true := by
  unfold classAttrsStep
  have h1 : (if truthyStr cn then
        setAttribute attrs "class" (cn.getD "") else attrs).all
      (fun p => standardAttrNames.contains p.1) = true := by
    cases hcn : truthyStr cn with
    | true =>
      simp only [hcn, if_true]
      exact all_fst_setAttribute _ _ _ _ (by decide) h
    | false => simpa only [hcn, Bool.false_eq_true, if_false] using h
  cases hcl : cl.isSome with
  | true =>
    simp only [hcl, if_true]
    exact all_fst_setAttribute _ _ _ _ (by decide) h1
  | false => simpa only [hcl, Bool.false_eq_true, if_false] using h1

theorem styleAttrStep_standard (a : List (String × String))
    (st : Option (List (String × String)))
    (h : a.all (fun p => standardAttrNames.contains p.1) = true) :
    (styleAttrStep a st).all (fun p => standardAttrNames.contains p.1) = true := by
  unfold styleAttrStep
  cases hst : st.isSome with
  | true =>
    simp only [hst, if_true]
    exact all_fst_setAttribute _ _ _ _ (by decide) h
  | false => simpa only [hst, Bool.false_eq_true, if_false] using h

theorem spanSrcStep_standard (tag : String) (a : List (String × String))
    (rs cs : Nat) (src : Option String)
    (h : a.all (fun p => standardAttrNames.contains p.1) = true) :
    (spanSrcStep tag a rs cs src).all
      (fun p => standardAttrNames.contains p.1) = true := by
  unfold spanSrcStep
  have hR : (if (rs != 0) = true then
        setAttribute a "rowspan" (toString rs) else a).all
      (fun p => standardAttrNames.contains p.1) = true := by
    cases hr : (rs != 0) with
    | true =>
      simp only [hr, if_true]
      exact all_fst_setAttribute _ _ _ _ (by decide) h
    | false => simpa only [hr, Bool.false_eq_true, if_false] using h
  cases htd : (tag == "td") with
  | true =>
    simp only [htd, if_true]
    cases hcs : (cs != 0) with
    | true =>
      simp only [hcs, if_true]
      exact all_fst_setAttribute _ _ _ _ (by decide) hR
    | false => simpa only [hcs, Bool.false_eq_true, if_false] using hR
  | false =>
    simp only [htd, Bool.false_eq_true, if_false]
    cases himg : (tag == "img" && truthyStr src) with
    | true =>
      simp only [himg, if_true]
      exact all_fst_setAttribute _ _ _ _ (by decide) h
    | false => simpa only [himg, Bool.false_eq_true, if_false] using h

/-- The attribute writes of one pass only ever add standard attribute names. -/
theorem elemAttrs_standard (tag : String) (attrs : List (String × String))
    (cn : Option String) (cl : Option (List String))
    (st : Option (List (String × String))) (rs cs : Nat) (src : Option String)
    (h : attrs.all (fun p => standardAttrNames.contains p.1) = true) :
    (elemAttrs tag attrs cn cl st rs cs src).all
      (fun p => standardAttrNames.contains p.1) = true := by
  unfold elemAttrs
  exact spanSrcStep_standard _ _ _ _ _
    (styleAttrStep_standard _ _ (classAttrsStep_standard _ _ _ h))

theorem onlyStandardAttrsList_app (l1 l2 : List XNode) :
    onlyStandardAttrsList (l1 ++ l2)
      = (onlyStandardAttrsList l1 && onlyStandardAttrsList l2) := by
  induction l1 with
  | nil => simp [onlyStandardAttrsList]
  | cons c cs ih => simp [onlyStandardAttrsList, ih, Bool.and_assoc]

mutual

theorem onlyStandardAttrs_handle : ∀ t : XNode, onlyStandardAttrs t = true →
    onlyStandardAttrs (handleXmlNode t) = true
| XNode.text _, _ => rfl
| XNode.comment _, _ => rfl
| XNode.element tag attrs cn cl ihm st rs cs src children, h => by
  rw [onlyStandardAttrs, Bool.and_eq_true] at h
  rw [handleXmlNode, onlyStandardAttrs, Bool.and_eq_true]
  constructor
  · exact elemAttrs_standard _ _ _ _ _ _ _ _ h.1
  · rw [onlyStandardAttrsList_app, onlyStandardAttrsList_handle children h.2]
    cases truthyStr ihm <;> rfl

theorem onlyStandardAttrsList_handle : ∀ l : List XNode,
    onlyStandardAttrsList l = true →
    onlyStandardAttrsList (handleXmlNodes l) = true
| [], _ => rfl
| c :: cs, h => by
  rw [onlyStandardAttrsList, Bool.and_eq_true] at h
  simp only [handleXmlNodes, onlyStandardAttrsList, onlyStandardAttrs_handle c h.1,
    onlyStandardAttrsList_handle cs h.2, Bool.and_self]

end

/-! ### Termination: bounded fuel suffices -/

theorem heightOf_pos : ∀ t : XNode, 1 ≤ heightOf t
| XNode.element _ _ _ _ _ _ _ _ _ _ => by rw [heightOf]; omega
| XNode.text _ => le_refl 1
| XNode.comment _ => le_refl 1

theorem heightOf_le_heightList (l : List XNode) : ∀ c ∈ l, heightOf c ≤ heightList l := by
  induction l with
  | nil => intro c hc; simp at hc
  | cons x xs ih =>
    intro c hc
    rw [heightList]
    rcases List.mem_cons.mp hc with h1 | h2
    · rw [h1]; exact le_max_left _ _
    · exact le_trans (ih c h2) (le_max_right _ _)

theorem optionMapList_eq_some (f : XNode → Option XNode) (g : XNode → XNode) :
    ∀ l : List XNode, (∀ c ∈ l, f c = some (g c)) →
      optionMapList f l = some (l.map g)
| [], _ => rfl
| c :: cs, h => by
  have h1 := h c (List.mem_cons_self c cs)
  have h2 := optionMapList_eq_some f g cs (fun x hx => h x (List.mem_cons_of_mem c hx))
  simp [optionMapList, h1, h2]

theorem handleXmlNodes_eq_map : ∀ l : List XNode, handleXmlNodes l = l.map handleXmlNode
| [] => rfl
| c :: cs => by rw [handleXmlNodes, List.map_cons, handleXmlNodes_eq_map cs]

theorem handleXmlNodes_ifapp (b : Bool) (s : String) :
    handleXmlNodes (if b then [XNode.text s] else [])
      = (if b then [XNode.text s] else []) := by
  cases b <;> rfl

/-- Any fuel bound of at least the tree height (plus one for the node itself)
makes the fuelled traversal succeed and agree with the total normalizer. -/
theorem handleXmlNodeFuel_sufficient (n : Nat) : ∀ t : XNode, heightOf t ≤ n →
    handleXmlNodeFuel (n + 1) t = some (handleXmlNode t) := by
  induction n with
  | zero =>
    intro t ht
    exact absurd (le_trans (heightOf_pos t) ht) (by omega)
  | succ n ih =>
    intro t ht
    match t with
    | XNode.text s => rfl
    | XNode.comment s => rfl
    | XNode.element tag attrs cn cl ihm st rs cs src children =>
      have hht : heightList children ≤ n := by
        rw [heightOf] at ht
        omega
      have hch : ∀ c ∈ children ++
          (if truthyStr ihm then [XNode.text (ihm.getD "")] else []),
          handleXmlNodeFuel (n + 1) c = some (handleXmlNode c) := by
        intro c hc
        rcases List.mem_append.mp hc with h1 | h2
        · exact ih c (le_trans (heightOf_le_heightList children c h1) hht)
        · cases hih : truthyStr ihm with
          | true =>
            rw [hih, if_pos rfl] at h2
            simp only [List.mem_singleton] at h2
            rw [h2]
            rfl
          | false =>
            rw [hih] at h2
            simp at h2
      have hmap := optionMapList_eq_some (handleXmlNodeFuel (n + 1)) handleXmlNode _ hch
      rw [handleXmlNodeFuel, hmap, ← handleXmlNodes_eq_map, handleXmlNodes_app,
        handleXmlNodes_ifapp, handleXmlNode]

/-! ### The shim installer -/

theorem mem_defineIfMissing_self (proto : List String) (name : String) :
    name ∈ defineIfMissing proto name := by
  unfold defineIfMissing
  split
  next h => exact h
  next h => simp

theorem mem_defineIfMissing_of_mem (proto : List String) (n m : String)
    (h : n ∈ proto) : n ∈ defineIfMissing proto m := by
  unfold defineIfMissing
  split
  · exact h
  · simp [h]

theorem defineIfMissing_of_mem (proto : List String) (n : String) (h : n ∈ proto) :
    defineIfMissing proto n = proto := by
  unfold defineIfMissing
  exact if_pos h

theorem count_defineIfMissing (proto : List String) (n m : String) (h : n ∈ proto) :
    (defineIfMissing proto m).count n = proto.count n := by
  unfold defineIfMissing
  split
  · rfl
  next hm =>
    have hne : n ≠ m := fun he => hm (he ▸ h)
    rw [List.count_append]
    simp [List.count_cons, hne]

/-! ### The claims -/

/-- C1, counterexample: after one normalization pass over a table cell with
span scalars 2 and 3, the row-span and column-span shadow scalars are still
set — the pass does not clear them, contradicting the claim that every shadow
field is cleared. -/
theorem C1_counterexample :
    rowSpanOf (handleXmlNode c1Node) ≠ 0 ∧ colSpanOf (handleXmlNode c1Node) ≠ 0 := by
  constructor <;> decide

/-- C1 (amended): after one normalization pass over a headless tree whose
nodes carry only the standard attributes, no truthy shadow state remains on
any node *except* the row-span/column-span scalars, which are projected onto
attributes but never cleared: the class-name value and injected markup are
falsy, the token list and style mapping are absent, the image source on image
nodes is falsy, and every node still carries only the standard attributes
`class`, `style`, `rowspan`, `colspan`, `src` (plus genuine text children). -/
theorem C1_amended_normalized_shadow_free (t : XNode)
    (h : onlyStandardAttrs t = true) :
    shadowCleared (handleXmlNode t) = true
    ∧ onlyStandardAttrs (handleXmlNode t) = true :=
  ⟨shadowCleared_handleXmlNode t, onlyStandardAttrs_handle t h⟩

/-- C1, witness: the amended claim evaluated on a concrete renderer tree. -/
theorem C1_witness :
    shadowCleared (handleXmlNode c1WitnessNode) = true
    ∧ onlyStandardAttrs (handleXmlNode c1WitnessNode) = true :=
  C1_amended_normalized_shadow_free c1WitnessNode (by decide)

/-- C2, counterexample: with a truthy class name "a" and a present-but-empty
token list, the token-list rule is *not* a no-op: a JS array is truthy even
when empty, so the rule overwrites rule 1's `class="a"` with the empty string
and clears the list, contradicting the claimed "clears if and only if
non-empty / no-op when empty". -/
theorem C2_counterexample :
    getAttribute (attrsOf (handleXmlNode c2Node)) "class" = some ""
    ∧ some "" ≠ some "a"
    ∧ classListOf (handleXmlNode c2Node) = none := by
  refine ⟨by decide, by decide, by decide⟩

/-- C2 (amended): the token-list rule fires whenever the internal list is
*present* (a JS array is truthy even when empty): it sets `class` to the
tokens joined by single spaces — overwriting rule 1's result, empty join
included — and clears the list; only an *absent* list makes the rule a no-op,
in which case rule 1's class attribute (written from a truthy class name) is
preserved. -/
theorem C2_amended_classList_rule (tag : String) (attrs : List (String × String))
    (cn ihm : Option String) (st : Option (List (String × String)))
    (rs cs : Nat) (src : Option String) (children : List XNode)
    (L : List String) (c : String) (hc : c ≠ "") :
    (getAttribute (attrsOf (handleXmlNode
        (XNode.element tag attrs cn (some L) ihm st rs cs src children))) "class"
      = some (String.intercalate " " L)
    ∧ classListOf (handleXmlNode
        (XNode.element tag attrs cn (some L) ihm st rs cs src children)) = none)
    ∧ getAttribute (attrsOf (handleXmlNode
        (XNode.element tag attrs (some c) none ihm st rs cs src children))) "class"
      = some c := by
  refine ⟨⟨?_, rfl⟩, ?_⟩
  · rw [handleXmlNode]
    show getAttribute (elemAttrs tag attrs cn (some L) st rs cs src) "class" = _
    rw [getAttribute_elemAttrs_class, getAttribute_classAttrsStep_some]
  · rw [handleXmlNode]
    show getAttribute (elemAttrs tag attrs (some c) none st rs cs src) "class" = _
    rw [getAttribute_elemAttrs_class, getAttribute_classAttrsStep_none_truthy _ _ hc]

/-- C2, witness: the amended claim evaluated on a concrete node with tokens
`["x", "y"]`. -/
theorem C2_witness :
    getAttribute (attrsOf (handleXmlNode
        (XNode.element "div" [] (some "a") (some ["x", "y"]) none none 0 0 none [])))
        "class"
      = some (String.intercalate " " ["x", "y"])
    ∧ String.intercalate " " ["x", "y"] = "x y" :=
  ⟨(C2_amended_classList_rule "div" [] (some "a") none none 0 0 none [] ["x", "y"]
      "a" (by decide)).1.1, by decide⟩

/-- C3, counterexample: the `kebabCase` regex replaces *every* ASCII uppercase
letter, a leading one included, so key "Foo" renders as "-foo: 1" and not
"foo: 1"; and a present-but-empty style mapping (truthy, like every JS object)
does write a style attribute, the empty one. -/
theorem C3_counterexample :
    getAttribute (attrsOf (handleXmlNode c3NodeA)) "style" = some "-foo: 1"
    ∧ some "-foo: 1" ≠ some "foo: 1"
    ∧ getAttribute (attrsOf (handleXmlNode c3NodeB)) "style" = some "" := by
  refine ⟨by decide, by decide, by decide⟩

/-- C3 (amended): whenever the internal style mapping is *present* (a JS
object is truthy even when empty), normalization sets `style` to the entries
rendered `name: value`, joined by `"; "` in insertion order, each name
hyphen-lowercased at *every* ASCII uppercase letter — a leading one included —
and clears the mapping; a present empty mapping yields an empty `style`
attribute, and only an absent mapping writes none. -/
theorem C3_amended_style_rule (tag : String) (attrs : List (String × String))
    (cn ihm : Option String) (cl : Option (List String))
    (rs cs : Nat) (src : Option String) (children : List XNode)
    (m : List (String × String)) :
    getAttribute (attrsOf (handleXmlNode
        (XNode.element tag attrs cn cl ihm (some m) rs cs src children))) "style"
      = some (renderStyles m)
    ∧ styleMapOf (handleXmlNode
        (XNode.element tag attrs cn cl ihm (some m) rs cs src children)) = none := by
  constructor
  · rw [handleXmlNode]
    show getAttribute (elemAttrs tag attrs cn cl (some m) rs cs src) "style" = _
    rw [getAttribute_elemAttrs_style, getAttribute_styleAttrStep_style]
  · rfl

/-- C4: normalization is idempotent — a second pass changes nothing: every
rule either sees its shadow field cleared (class name, token list, injected
markup, style mapping, image source) or rewrites an attribute to the value it
already has (the span writes on a table cell). -/
theorem C4_normalization_idempotent (t : XNode) :
    handleXmlNode (handleXmlNode t) = handleXmlNode t :=
  handleXmlNode_idem_aux t

/-- C5: a truthy injected-markup string becomes exactly one text child
holding the string verbatim — no escaping or re-parsing — appended as the
node's last child, and the field is then cleared. -/
theorem C5_innerHTML_rule (tag : String) (attrs : List (String × String))
    (cn : Option String) (cl : Option (List String))
    (st : Option (List (String × String))) (rs cs : Nat) (src : Option String)
    (children : List XNode) (s : String) (hs : s ≠ "") :
    childNodesOf (handleXmlNode
        (XNode.element tag attrs cn cl (some s) st rs cs src children))
      = handleXmlNodes children ++ [XNode.text s]
    ∧ innerHTMLOf (handleXmlNode
        (XNode.element tag attrs cn cl (some s) st rs cs src children)) = none := by
  have ht : truthyStr (some s) = true := by simp [truthyStr, hs]
  constructor
  · rw [handleXmlNode]
    show handleXmlNodes children
        ++ (if truthyStr (some s) then [XNode.text ((some s).getD "")] else []) = _
    simp [ht]
  · rw [handleXmlNode]
    show (if truthyStr (some s) then none else some s) = none
    simp [ht]

/-- C5, witness: the claim evaluated at the injected markup "Hello & <b>". -/
theorem C5_witness :
    childNodesOf (handleXmlNode
        (XNode.element "div" [] none none (some "Hello & <b>") none 0 0 none []))
      = [XNode.text "Hello & <b>"]
    ∧ innerHTMLOf (handleXmlNode
        (XNode.element "div" [] none none (some "Hello & <b>") none 0 0 none []))
      = none := by
  have h := C5_innerHTML_rule "div" [] none none none 0 0 none [] "Hello & <b>"
    (by decide)
  exact ⟨h.1.trans rfl, h.2⟩

/-- C6: on a table-cell node (`isTableCell`, i.e. tag exactly "td"), a
non-zero row-span scalar is written as the decimal-string `rowspan` attribute
and, independently, a non-zero column-span scalar as `colspan`; neither write
clears its source scalar. -/
theorem C6_tablecell_rule (tag : String) (attrs : List (String × String))
    (cn : Option String) (cl : Option (List String)) (ihm : Option String)
    (st : Option (List (String × String))) (rs cs : Nat) (src : Option String)
    (children : List XNode)
    (htag : isTableCell (XNode.element tag attrs cn cl ihm st rs cs src children)
      = true) :
    (rs ≠ 0 → getAttribute (attrsOf (handleXmlNode
        (XNode.element tag attrs cn cl ihm st rs cs src children))) "rowspan"
      = some (toString rs))
    ∧ (cs ≠ 0 → getAttribute (attrsOf (handleXmlNode
        (XNode.element tag attrs cn cl ihm st rs cs src children))) "colspan"
      = some (toString cs))
    ∧ rowSpanOf (handleXmlNode
        (XNode.element tag attrs cn cl ihm st rs cs src children)) = rs
    ∧ colSpanOf (handleXmlNode
        (XNode.element tag attrs cn cl ihm st rs cs src children)) = cs := by
  have htag2 : tag = "td" := by simpa [isTableCell] using htag
  subst htag2
  refine ⟨?_, ?_, rfl, rfl⟩
  · intro hr
    rw [handleXmlNode]
    show getAttribute (elemAttrs "td" attrs cn cl st rs cs src) "rowspan" = _
    unfold elemAttrs
    exact getAttribute_spanSrcStep_rowspan _ _ _ _ hr
  · intro hcs
    rw [handleXmlNode]
    show getAttribute (elemAttrs "td" attrs cn cl st rs cs src) "colspan" = _
    unfold elemAttrs
    exact getAttribute_spanSrcStep_colspan _ _ _ _ hcs

/-- C6, witness: a table cell with row-span 2 and column-span 3 gains
`rowspan="2"` and `colspan="3"`, and keeps both scalars. -/
theorem C6_witness :
    getAttribute (attrsOf (handleXmlNode
        (XNode.element "td" [] none none none none 2 3 none []))) "rowspan"
      = some "2"
    ∧ getAttribute (attrsOf (handleXmlNode
        (XNode.element "td" [] none none none none 2 3 none []))) "colspan"
      = some "3"
    ∧ rowSpanOf (handleXmlNode
        (XNode.element "td" [] none none none none 2 3 none [])) = 2 := by
  have h := C6_tablecell_rule "td" [] none none none none 2 3 none [] (by decide)
  exact ⟨(h.1 (by decide)).trans (by decide), (h.2.1 (by decide)).trans (by decide),
    h.2.2.1⟩

/-- C7: installing the shim is idempotent and never overwrites: after one
installation all three accessor properties are own properties of the
prototype, a second installation changes nothing, and properties that already
existed are neither replaced nor duplicated (their multiplicity is
unchanged). -/
theorem C7_shim_idempotent (p : List String) :
    initXmlDom (initXmlDom p) = initXmlDom p
    ∧ "firstElementChild" ∈ initXmlDom p
    ∧ "style" ∈ initXmlDom p
    ∧ "classList" ∈ initXmlDom p
    ∧ ∀ n ∈ p, (initXmlDom p).count n = p.count n := by
  have hf : "firstElementChild" ∈ initXmlDom p := by
    unfold initXmlDom
    exact mem_defineIfMissing_of_mem _ _ _
      (mem_defineIfMissing_of_mem _ _ _ (mem_defineIfMissing_self _ _))
  have hs : "style" ∈ initXmlDom p := by
    unfold initXmlDom
    exact mem_defineIfMissing_of_mem _ _ _ (mem_defineIfMissing_self _ _)
  have hc : "classList" ∈ initXmlDom p := by
    unfold initXmlDom
    exact mem_defineIfMissing_self _ _
  refine ⟨?_, hf, hs, hc, ?_⟩
  · conv_lhs => rw [initXmlDom]
    rw [defineIfMissing_of_mem _ _ hf, defineIfMissing_of_mem _ _ hs,
      defineIfMissing_of_mem _ _ hc]
  · intro n hn
    have h1 : n ∈ defineIfMissing p "firstElementChild" :=
      mem_defineIfMissing_of_mem _ _ _ hn
    have h2 : n ∈ defineIfMissing (defineIfMissing p "firstElementChild") "style" :=
      mem_defineIfMissing_of_mem _ _ _ h1
    unfold initXmlDom
    rw [count_defineIfMissing _ _ _ h2, count_defineIfMissing _ _ _ h1,
      count_defineIfMissing _ _ _ hn]

/-- C7, witness: on a prototype that already owns "style", installation keeps
its multiplicity at one (no duplication, no overwrite). -/
theorem C7_witness :
    (initXmlDom ["style"]).count "style" = (["style"] : List String).count "style" :=
  (C7_shim_idempotent ["style"]).2.2.2.2 "style" (by decide)

/-- C8: the shimmed first-element-child accessor returns the first child, in
child order, whose node kind is element — skipping text and comment nodes —
and null when no child is an element. -/
theorem C8_first_element_child (n : XNode) :
    (∀ pre e post, childNodesOf n = pre ++ e :: post →
        (∀ c ∈ pre, nodeTypeOf c ≠ 1) → nodeTypeOf e = 1 →
        getFirstElementChild (some n) = some e)
    ∧ ((∀ c ∈ childNodesOf n, nodeTypeOf c ≠ 1) →
        getFirstElementChild (some n) = none) := by
  constructor
  · intro pre e post hsplit hpre he
    have hany : pre.any (fun c => nodeTypeOf c == 1) = false := by
      simp only [List.any_eq_false, beq_iff_eq]
      exact hpre
    rw [getFirstElementChild, hsplit, find?_append_left_none _ _ _ hany]
    simp [List.find?, he]
  · intro h
    rw [getFirstElementChild]
    refine List.find?_eq_none.mpr ?_
    intro c hc
    simpa using h c hc

/-- C8, witness: the accessor skips a text and a comment child and returns
the element child that follows them. -/
theorem C8_witness :
    getFirstElementChild (some c8Node)
      = some (XNode.element "b" [] none none none none 0 0 none []) :=
  (C8_first_element_child c8Node).1 [XNode.text "t", XNode.comment "c"]
    (XNode.element "b" [] none none none none 0 0 none []) [XNode.text "u"]
    rfl (by decide) (by decide)

/-- C9: the normalizer's tag classification is an exact, case-sensitive match
on "td" and "img": for an element with any other tag — case variants such as
"TD" or "IMG" included — no `rowspan`, `colspan` or `src` attribute is
written even when the span or source scalars are set, and the source scalar
is not cleared. -/
theorem C9_case_sensitive_tags (tag : String) (attrs : List (String × String))
    (cn : Option String) (cl : Option (List String)) (ihm : Option String)
    (st : Option (List (String × String))) (rs cs : Nat) (src : Option String)
    (children : List XNode) (htd : tag ≠ "td") (himg : tag ≠ "img") :
    getAttribute (attrsOf (handleXmlNode
        (XNode.element tag attrs cn cl ihm st rs cs src children))) "rowspan"
      = getAttribute attrs "rowspan"
    ∧ getAttribute (attrsOf (handleXmlNode
        (XNode.element tag attrs cn cl ihm st rs cs src children))) "colspan"
      = getAttribute attrs "colspan"
    ∧ getAttribute (attrsOf (handleXmlNode
        (XNode.element tag attrs cn cl ihm st rs cs src children))) "src"
      = getAttribute attrs "src"
    ∧ srcOf (handleXmlNode
        (XNode.element tag attrs cn cl ihm st rs cs src children)) = src := by
  have h1 : (tag == "td") = false := by simp [htd]
  have h2 : (tag == "img") = false := by simp [himg]
  have h3 : (tag == "img" && truthyStr src) = false := by simp [h2]
  have hattrs : attrsOf (handleXmlNode
      (XNode.element tag attrs cn cl ihm st rs cs src children))
      = styleAttrStep (classAttrsStep attrs cn cl) st := by
    rw [handleXmlNode]
    show elemAttrs tag attrs cn cl st rs cs src = _
    unfold elemAttrs
    exact spanSrcStep_other_tag _ _ _ _ _ h1 h3
  refine ⟨?_, ?_, ?_, ?_⟩
  · rw [hattrs, getAttribute_styleAttrStep_other _ _ _ (by decide),
      getAttribute_classAttrsStep_other _ _ _ _ (by decide)]
  · rw [hattrs, getAttribute_styleAttrStep_other _ _ _ (by decide),
      getAttribute_classAttrsStep_other _ _ _ _ (by decide)]
  · rw [hattrs, getAttribute_styleAttrStep_other _ _ _ (by decide),
      getAttribute_classAttrsStep_other _ _ _ _ (by decide)]
  · rw [handleXmlNode]
    show (if tag == "td" then src
      else if tag == "img" && truthyStr src then none else src) = src
    simp [h1, h3]

/-- C9, witness: an uppercase "TD" cell with spans set gains no `rowspan`
attribute, and an uppercase "IMG" with a source keeps the scalar and gains no
`src` attribute. -/
theorem C9_witness :
    getAttribute (attrsOf (handleXmlNode
        (XNode.element "TD" [] none none none none 2 3 (some "u") []))) "rowspan"
      = none
    ∧ srcOf (handleXmlNode
        (XNode.element "IMG" [] none none none none 0 0 (some "u") []))
      = some "u" := by
  have hTD := C9_case_sensitive_tags "TD" [] none none none none 2 3 (some "u") []
    (by decide) (by decide)
  have hIMG := C9_case_sensitive_tags "IMG" [] none none none none 0 0 (some "u") []
    (by decide) (by decide)
  exact ⟨hTD.1.trans (by decide), hIMG.2.2.2⟩

/-- C10: the normalization pass terminates on every finite tree.  The fuelled
traversal — which, exactly like the source loop that re-reads the child count,
also visits the text child appended by the injected-markup rule — succeeds
with fuel equal to the tree height plus one, and returns the total
normalizer's result: the appended child is a text node that matches no rule
and contributes no further children. -/
theorem C10_normalization_terminates (t : XNode) :
    handleXmlNodeFuel (heightOf t + 1) t = some (handleXmlNode t) :=
  handleXmlNodeFuel_sufficient (heightOf t) t (le_refl _)

end DocxPreview
